import Mathlib

/-!
Shallow embedding of `src/main.py`, a MicroPython script driving a linear
actuator through an H-bridge with two PWM channels (RPWM = extend on GPIO 26,
LPWM = retract on GPIO 27), plus an LED blink test and a PWM ramp test.

Modelling conventions:
* Time is modelled in whole milliseconds (`ℕ`); the script only ever sleeps
  for 0.05 s, 0.5 s, 1 s or a caller-given whole-second duration, so this is
  exact.  Only `time.sleep` advances the clock (all other statements are
  treated as instantaneous), matching the spec's synchronous hardware model.
* Each function is translated to the list of externally visible events it
  performs (PWM writes, pin writes, sleeps, console prints, acquisitions and
  releases of PWM channels).
* A PWM channel is modelled as holding duty 0 when it is acquired
  (`Ev.acquire`); writes (`duty_u16`) overwrite the stored duty.
* `KeyboardInterrupt` is modelled as arriving during the k-th `time.sleep`
  of the `try` body (the only blocking points), cutting the body short there;
  the `try/except KeyboardInterrupt/finally` structure of every entry point
  is translated by `tryCEF` below.
* Python's `int(x)` on a float truncates toward zero, and for the magnitudes
  reached here (`|speed| ≤ 10^9`) the float expression `speed * 65535 / 100`
  is close enough to the exact rational that truncation agrees with exact
  integer truncated division, which is what `dutyCycle` uses.
-/

/-- The PWM channels used by the script: `ext` = RPWM/GPIO 26 (extend),
`ret` = LPWM/GPIO 27 (retract), `tst` = the single channel of `test_pwm`. -/
inductive Ch
  | ext
  | ret
  | tst
deriving DecidableEq

/-- Console messages printed by the script (string contents abbreviated to
constructor names; only identity matters for the claims). -/
inductive Msg
  | startCycle      -- "--- STARTING SINGLE CYCLE ---"
  | extending       -- "Extending for {duration} seconds..."
  | pausing         -- "Pausing..."
  | retracting      -- "Retracting for {duration} seconds..."
  | cycleInterrupted -- "! CYCLE INTERRUPTED BY USER !"
  | cycleComplete   -- "--- CYCLE COMPLETE: MOTORS OFF ---"
  | extStart        -- "--> Extending for {duration}s at {speed}%..."
  | stopInterrupted -- "Interrupted!"
  | extStopped      -- "--> Stopped."
  | retStart        -- "<-- Retracting for {duration}s at {speed}%..."
  | retStopped      -- "<-- Stopped."
  | ledStart        -- "Starting LED test on GPIO ..."
  | testStopped     -- "Test stopped"
  | pwmStart        -- "Starting PWM Test for ..."
  | speedingUp      -- "Speeding up..."
  | fullSpeed       -- "Full Speed!"
  | slowingDown     -- "Slowing down..."
deriving DecidableEq

/-- Externally visible events performed by the script. -/
inductive Ev
  | acquire (c : Ch)        -- `PWM(Pin(p), freq=1000)`
  | deinit (c : Ch)         -- `pwm.deinit()`
  | setDuty (c : Ch) (v : ℤ) -- `pwm.duty_u16(v)`
  | pinWrite (v : ℕ)        -- `led.value(v)`
  | sleep (ms : ℕ)          -- `time.sleep(ms / 1000)`
  | printMsg (m : Msg)      -- `print(...)`
deriving DecidableEq

/-- `int(speed * 65535 / 100)` from lines 104, 145 and 175 of `src/main.py`:
Python's `int` truncates the quotient toward zero. -/
def dutyCycle (speed : ℤ) : ℤ :=
  (speed * 65535).tdiv 100

/-- Modelled from the spec: `duty_cycle` "derived as
`round(speed_percent * 65535 / 100)`" (spec §3); rounding the exact rational
to the nearest integer.  Used only to compare the spec's formula with the
code's `dutyCycle`. -/
def dutyCycleSpecRound (speed : ℤ) : ℤ :=
  round ((speed * 65535 : ℚ) / 100)

/-- Python `range(start, stop, step)` with positive step, as the list of
produced values (fuel is `stop - start`, enough whenever `step ≥ 1`). -/
def pyRangeAscGo (step : ℕ) : ℕ → ℕ → ℕ → List ℕ
  | 0, _, _ => []
  | fuel + 1, start, stop =>
    if start < stop then start :: pyRangeAscGo step fuel (start + step) stop else []

/-- Python `range(start, stop, step)` for `0 < step`. -/
def pyRangeAsc (start stop step : ℕ) : List ℕ :=
  pyRangeAscGo step (stop - start) start stop

/-- Python `range(start, stop, -step)` (descending, down to `stop`
exclusive); values only, for the nonnegative ranges used in the script. -/
def pyRangeDescGo (step : ℕ) : ℕ → ℕ → ℕ → List ℕ
  | 0, _, _ => []
  | fuel + 1, start, stop =>
    if stop < start then start :: pyRangeDescGo step fuel (start - step) stop else []

/-- Python `range(start, stop, -step)` for `0 < step`, `stop ≤ start`. -/
def pyRangeDesc (start stop step : ℕ) : List ℕ :=
  pyRangeDescGo step (start - stop) start stop

/-- Cut an event list at the k-th `sleep` (0-based): models a
`KeyboardInterrupt` arriving while the k-th blocking wait is in progress,
discarding that wait and everything after it.  If the list has at most `k`
sleeps the whole list survives (the interrupt arrives after the last wait,
still inside the `try` body). -/
def cutAtSleep : ℕ → List Ev → List Ev
  | _, [] => []
  | k, Ev.sleep t :: r =>
    match k with
    | 0 => []
    | k + 1 => Ev.sleep t :: cutAtSleep k r
  | k, e :: r => e :: cutAtSleep k r

/-- Python `try: body except KeyboardInterrupt: handler finally: fin` where
`handler` only prints (it does not re-raise).  `i = none` is the
uninterrupted run; `i = some k` is an interrupt during the body's k-th
`sleep`.  The second component records whether an exception propagates out
of the statement: the `except KeyboardInterrupt` clause swallows the
interrupt, so it is always `false`. -/
def tryCEF (body handler fin : List Ev) (i : Option ℕ) : List Ev × Bool :=
  match i with
  | none => (body ++ fin, false)
  | some k => (cutAtSleep k body ++ handler ++ fin, false)

/-- `try` body of `run_one_cycle` (lines 106-121 of `src/main.py`). -/
def runOneCycleBody (speed : ℤ) (durMs : ℕ) : List Ev :=
  [Ev.printMsg Msg.extending,
   Ev.setDuty Ch.ret 0,
   Ev.setDuty Ch.ext (dutyCycle speed),
   Ev.sleep durMs,
   Ev.printMsg Msg.pausing,
   Ev.setDuty Ch.ext 0,
   Ev.sleep 500,
   Ev.printMsg Msg.retracting,
   Ev.setDuty Ch.ret (dutyCycle speed),
   Ev.sleep durMs]

/-- `finally` block of `run_one_cycle` (lines 126-134). -/
def runOneCycleFin : List Ev :=
  [Ev.printMsg Msg.cycleComplete,
   Ev.setDuty Ch.ext 0,
   Ev.setDuty Ch.ret 0,
   Ev.deinit Ch.ext,
   Ev.deinit Ch.ret]

/-- `run_one_cycle(r_pwm_pin, l_pwm_pin, speed, duration)` (lines 87-134):
print, acquire both channels, compute `duty_cycle`, then the
extend/pause/retract body under `try/except KeyboardInterrupt/finally`. -/
def runOneCycleTrace (speed : ℤ) (durMs : ℕ) (i : Option ℕ) : List Ev × Bool :=
  let t := tryCEF (runOneCycleBody speed durMs)
    [Ev.printMsg Msg.cycleInterrupted] runOneCycleFin i
  (Ev.printMsg Msg.startCycle :: Ev.acquire Ch.ext :: Ev.acquire Ch.ret :: t.1, t.2)

/-- `extend_only(duration, speed)` (lines 136-164): only the extend channel
is acquired; the retract-channel lines are commented out in the source. -/
def extendOnlyTrace (durMs : ℕ) (speed : ℤ) (i : Option ℕ) : List Ev × Bool :=
  let t := tryCEF
    [Ev.setDuty Ch.ext (dutyCycle speed), Ev.sleep durMs]
    [Ev.printMsg Msg.stopInterrupted]
    [Ev.setDuty Ch.ext 0, Ev.deinit Ch.ext, Ev.printMsg Msg.extStopped] i
  (Ev.printMsg Msg.extStart :: Ev.acquire Ch.ext :: t.1, t.2)

/-- `retract_only(duration, speed)` (lines 166-194): both channels are
acquired; extend is zeroed before retract is enabled. -/
def retractOnlyTrace (durMs : ℕ) (speed : ℤ) (i : Option ℕ) : List Ev × Bool :=
  let t := tryCEF
    [Ev.setDuty Ch.ext 0, Ev.setDuty Ch.ret (dutyCycle speed), Ev.sleep durMs]
    [Ev.printMsg Msg.stopInterrupted]
    [Ev.setDuty Ch.ext 0, Ev.setDuty Ch.ret 0,
     Ev.deinit Ch.ext, Ev.deinit Ch.ret, Ev.printMsg Msg.retStopped] i
  (Ev.printMsg Msg.retStart :: Ev.acquire Ch.ext :: Ev.acquire Ch.ret :: t.1, t.2)

/-- Duty state of the two motor channels: `(extend duty, retract duty)`.
An acquired channel starts at duty 0 (modelling assumption stated in the
header); `duty_u16` overwrites; `deinit` leaves the last written duty. -/
def stepSt : ℤ × ℤ → Ev → ℤ × ℤ
  | (_, r), Ev.acquire Ch.ext => (0, r)
  | (x, _), Ev.acquire Ch.ret => (x, 0)
  | (_, r), Ev.setDuty Ch.ext v => (v, r)
  | (x, _), Ev.setDuty Ch.ret v => (x, v)
  | s, _ => s

/-- All duty states reached at any instant while a trace executes
(including the initial state). -/
def statesVisited (s : ℤ × ℤ) (tr : List Ev) : List (ℤ × ℤ) :=
  tr.scanl stepSt s

/-- Duty state after a whole trace. -/
def finalState (s : ℤ × ℤ) (tr : List Ev) : ℤ × ℤ :=
  tr.foldl stepSt s

/-- The timed segments of a trace: one `(state, ms)` entry per `sleep`,
giving the duty state held during that wait. -/
def segs : ℤ × ℤ → List Ev → List ((ℤ × ℤ) × ℕ)
  | _, [] => []
  | s, Ev.sleep t :: r => (s, t) :: segs s r
  | s, e :: r => segs (stepSt s e) r

/-- Duty of channel `c` in a state (the `tst` channel is not part of the
motor state). -/
def dutySt (c : Ch) (s : ℤ × ℤ) : ℤ :=
  match c with
  | Ch.ext => s.1
  | Ch.ret => s.2
  | Ch.tst => 0

/-- The duty of channel `c` at the moment of its first `deinit` in the
trace, if any. -/
def dutyAtDeinit (c : Ch) : ℤ × ℤ → List Ev → Option ℤ
  | _, [] => none
  | s, Ev.deinit c' :: r =>
    if c' = c then some (dutySt c s) else dutyAtDeinit c s r
  | s, e :: r => dutyAtDeinit c (stepSt s e) r

/-- Number of `deinit c` events in a trace. -/
def deinitCount (c : Ch) (tr : List Ev) : ℕ :=
  tr.countP (fun e => e = Ev.deinit c)

/-- Sum of the sleep durations in a trace (total blocked time). -/
def sleepSum : List Ev → ℕ
  | [] => 0
  | Ev.sleep t :: r => t + sleepSum r
  | _ :: r => sleepSum r

/-- Start time and length of each `sleep` in a trace, given the elapsed
time `e0` at which the trace begins. -/
def sleepStamps (e0 : ℕ) : List Ev → List (ℕ × ℕ)
  | [] => []
  | Ev.sleep t :: r => (e0, t) :: sleepStamps (e0 + t) r
  | _ :: r => sleepStamps e0 r

/-- The `while` loop of `test_led` (lines 24-30 of `src/main.py`), with the
elapsed time `e` threaded explicitly:
`while elapsed < duration: led.value(1); sleep(don);`
`if elapsed >= duration: break; led.value(0); sleep(doff)`.
Returns the events and the elapsed time at loop exit; `none` on fuel
exhaustion (the Python loop diverges when `don = doff = 0`). -/
def ledLoop : ℕ → ℕ → ℕ → ℕ → ℕ → Option (List Ev × ℕ)
  | 0, _, _, _, _ => none
  | fuel + 1, don, doff, dur, e =>
    if e < dur then
      let e1 := e + don
      if dur ≤ e1 then some ([Ev.pinWrite 1, Ev.sleep don], e1)
      else
        match ledLoop fuel don doff dur (e1 + doff) with
        | none => none
        | some (r, fin) =>
          some ([Ev.pinWrite 1, Ev.sleep don, Ev.pinWrite 0, Ev.sleep doff] ++ r, fin)
    else some ([], e)

/-- `test_led(pin_number, delay_on, delay_off, duration)` (lines 7-34):
pin setup, print, the blink loop under `try/except/finally`, and
`led.value(0)` in the `finally` block. -/
def testLedTrace (don doff dur fuel : ℕ) (i : Option ℕ) : Option (List Ev × Bool) :=
  (ledLoop fuel don doff dur 0).map fun r =>
    let t := tryCEF r.1 [Ev.printMsg Msg.testStopped] [Ev.pinWrite 0] i
    (Ev.printMsg Msg.ledStart :: t.1, t.2)

/-- One ramp loop of `test_pwm` (lines 54-58 and 73-77): for each value in
the range, check the elapsed-time bound (breaking out of the `for` if it
has been reached), write the duty, sleep 50 ms. -/
def pwmRamp (dur : ℕ) : List ℕ → ℕ → List Ev × ℕ
  | [], e => ([], e)
  | s :: rest, e =>
    if dur ≤ e then ([], e)
    else
      let r := pwmRamp dur rest (e + 50)
      (Ev.setDuty Ch.tst (s : ℤ) :: Ev.sleep 50 :: r.1, r.2)

/-- One iteration of `test_pwm`'s outer `while` body (lines 51-81): ramp up
over `range(0, 65535, 1000)`, bound check, hold at 65535 for 1 s, bound
check, ramp down over `range(65535, 0, -1000)`, then unconditionally write
duty 0 and sleep 1 s.  Returns `(events, elapsed, brokeWhile)` where
`brokeWhile` records a `break` out of the `while` (lines 61 and 69; a break
out of a `for` alone does not set it). -/
def pwmIter (dur e : ℕ) : List Ev × ℕ × Bool :=
  let a := pwmRamp dur (pyRangeAsc 0 65535 1000) e
  let evA := Ev.printMsg Msg.speedingUp :: a.1
  if dur ≤ a.2 then (evA, a.2, true)
  else
    let evH := evA ++ [Ev.printMsg Msg.fullSpeed, Ev.setDuty Ch.tst 65535, Ev.sleep 1000]
    let e2 := a.2 + 1000
    if dur ≤ e2 then (evH, e2, true)
    else
      let b := pwmRamp dur (pyRangeDesc 65535 0 1000) e2
      (evH ++ Ev.printMsg Msg.slowingDown :: b.1 ++ [Ev.setDuty Ch.tst 0, Ev.sleep 1000],
       b.2 + 1000, false)

/-- The outer `while` loop of `test_pwm` (lines 51-81); `none` on fuel
exhaustion (each completed iteration advances the clock by 8600 ms, so any
`fuel > dur / 8600 + 1` suffices). -/
def pwmLoop : ℕ → ℕ → ℕ → Option (List Ev × ℕ)
  | 0, _, _ => none
  | fuel + 1, dur, e =>
    if e < dur then
      let it := pwmIter dur e
      if it.2.2 then some (it.1, it.2.1)
      else
        match pwmLoop fuel dur it.2.1 with
        | none => none
        | some (r, fin) => some (it.1 ++ r, fin)
    else some ([], e)

/-- `test_pwm(pin_number, duration)` (lines 36-85): PWM setup, print, the
ramp loop under `try/except/finally`, and `duty_u16(0)` in the `finally`
block. -/
def testPwmTrace (dur fuel : ℕ) (i : Option ℕ) : Option (List Ev × Bool) :=
  (pwmLoop fuel dur 0).map fun r =>
    let t := tryCEF r.1 [Ev.printMsg Msg.testStopped] [Ev.setDuty Ch.tst 0] i
    (Ev.acquire Ch.tst :: Ev.printMsg Msg.pwmStart :: t.1, t.2)

/-- Duty values written to the `test_pwm` channel, in order. -/
def writesOf (tr : List Ev) : List ℤ :=
  tr.filterMap fun e =>
    match e with
    | Ev.setDuty Ch.tst v => some v
    | _ => none

/-- `true` exactly on events that touch the retract channel (acquire,
write, or release of LPWM). -/
def touchesRet : Ev → Bool
  | Ev.acquire Ch.ret => true
  | Ev.setDuty Ch.ret _ => true
  | Ev.deinit Ch.ret => true
  | _ => false

/-- `true` exactly on writes of a nonzero duty to the extend channel. -/
def drivesExt : Ev → Bool
  | Ev.setDuty Ch.ext v => decide (v ≠ 0)
  | _ => false

-- ------------------------------------------------------------------
-- Theorems
-- ------------------------------------------------------------------

-- sanity checks: concrete evaluations of the embedding
example : dutyCycle 50 = 32767 := by decide
example : dutyCycle 100 = 65535 := by decide
example : pyRangeAsc 0 5 2 = [0, 2, 4] := by decide
example : pyRangeDesc 5 0 2 = [5, 3, 1] := by decide
example : (pyRangeAsc 0 65535 1000).length = 66 := by decide
example : (ledLoop 5 2000 1000 4000 0).map Prod.snd = some 5000 := by decide

/-- C9: for every integer speed in `[0,100]`, the computed duty cycle lies
in `[0,65535]`; speed 0 yields duty 0 and speed 100 yields duty 65535. -/
theorem dutyCycle_mem_range (speed : ℤ) (h0 : 0 ≤ speed) (h1 : speed ≤ 100) :
    0 ≤ dutyCycle speed ∧ dutyCycle speed ≤ 65535 ∧
      dutyCycle 0 = 0 ∧ dutyCycle 100 = 65535 := by
  refine ⟨Int.tdiv_nonneg (by positivity) (by norm_num), ?_, by decide, by decide⟩
  rw [dutyCycle, Int.tdiv_eq_ediv (by positivity) (by norm_num)]
  omega

/-- Witness for `dutyCycle_mem_range` at speed 50. -/
theorem dutyCycle_mem_range_witness :
    (0 ≤ (50 : ℤ) ∧ (50 : ℤ) ≤ 100) ∧
      (0 ≤ dutyCycle 50 ∧ dutyCycle 50 ≤ 65535 ∧
        dutyCycle 0 = 0 ∧ dutyCycle 100 = 65535) :=
  ⟨by decide, dutyCycle_mem_range 50 (by decide) (by decide)⟩

/-- C10: no entry point validates or clamps the speed: any speed above 100
yields a duty above 65535 (speed 200 gives 131070), any negative speed a
negative duty, and the computed value is passed unchanged to `duty_u16` by
`run_one_cycle`, `extend_only` and `retract_only`. -/
theorem dutyCycle_not_clamped (speed : ℤ) (durMs : ℕ) :
    (100 < speed → 65535 < dutyCycle speed) ∧
      (speed < 0 → dutyCycle speed < 0) ∧
      dutyCycle 200 = 131070 ∧
      Ev.setDuty Ch.ext (dutyCycle speed) ∈ (runOneCycleTrace speed durMs none).1 ∧
      Ev.setDuty Ch.ext (dutyCycle speed) ∈ (extendOnlyTrace durMs speed none).1 ∧
      Ev.setDuty Ch.ret (dutyCycle speed) ∈ (retractOnlyTrace durMs speed none).1 := by
  refine ⟨?_, ?_, by decide, ?_, ?_, ?_⟩
  · intro h
    have h0 : (0 : ℤ) ≤ speed * 65535 := by nlinarith
    rw [dutyCycle, Int.tdiv_eq_ediv h0 (by norm_num)]
    omega
  · intro h
    have h0 : (0 : ℤ) ≤ -(speed * 65535) := by nlinarith
    have hrw : dutyCycle speed = -((-(speed * 65535)).tdiv 100) := by
      rw [dutyCycle, Int.neg_tdiv, neg_neg]
    rw [hrw, Int.tdiv_eq_ediv h0 (by norm_num)]
    omega
  · simp [runOneCycleTrace, tryCEF, runOneCycleBody]
  · simp [extendOnlyTrace, tryCEF]
  · simp [retractOnlyTrace, tryCEF]

/-- Witness for `dutyCycle_not_clamped` at speed 200 / speed -50. -/
theorem dutyCycle_not_clamped_witness :
    ((100 : ℤ) < 200 ∧ 65535 < dutyCycle 200) ∧
      ((-50 : ℤ) < 0 ∧ dutyCycle (-50) < 0) ∧
      Ev.setDuty Ch.ext (dutyCycle 200) ∈ (runOneCycleTrace 200 2000 none).1 :=
  ⟨⟨by decide, (dutyCycle_not_clamped 200 2000).1 (by decide)⟩,
   ⟨by decide, (dutyCycle_not_clamped (-50) 2000).2.1 (by decide)⟩,
   (dutyCycle_not_clamped 200 2000).2.2.2.1⟩

/-- C1 counterexample: the code truncates (`int(...)`), it does not round.
At speed 50 the exact value is 32767.5: the spec's rounding gives 32768 but
the code computes 32767, and `extend_only(duration=1, speed=50)` writes
32767 (never 32768) to the extend channel. -/
theorem dutyCycle_truncates_not_rounds :
    dutyCycle 50 = 32767 ∧ dutyCycleSpecRound 50 = 32768 ∧
      Ev.setDuty Ch.ext 32767 ∈ (extendOnlyTrace 1000 50 none).1 ∧
      Ev.setDuty Ch.ext 32768 ∉ (extendOnlyTrace 1000 50 none).1 := by
  refine ⟨by decide, ?_, by decide, by decide⟩
  rw [dutyCycleSpecRound]
  norm_num [round_eq]

/-- C1 amended: for speeds in `[0,100]` the duty cycle is the truncation
`⌊speed * 65535 / 100⌋`, and `extend_only(duration=1, speed=50)` drives the
extend channel at duty 32767 for 1 s and then leaves it at 0. -/
theorem dutyCycle_floor_and_extend_scenario (speed : ℤ)
    (h0 : 0 ≤ speed) (h1 : speed ≤ 100) :
    dutyCycle speed = speed * 65535 / 100 ∧
      segs (0, 0) (extendOnlyTrace 1000 50 none).1 = [((32767, 0), 1000)] ∧
      finalState (0, 0) (extendOnlyTrace 1000 50 none).1 = (0, 0) :=
  ⟨Int.tdiv_eq_ediv (by positivity) (by norm_num), by decide, by decide⟩

/-- Witness for `dutyCycle_floor_and_extend_scenario` at speed 50. -/
theorem dutyCycle_floor_and_extend_scenario_witness :
    (0 ≤ (50 : ℤ) ∧ (50 : ℤ) ≤ 100) ∧ dutyCycle 50 = 50 * 65535 / 100 :=
  ⟨by decide, (dutyCycle_floor_and_extend_scenario 50 (by decide) (by decide)).1⟩

/-- C5: `run_one_cycle(speed=100, duration=2)`, absent interruption, holds
extend at 65535 (retract 0) for 2 s, then both at 0 for 0.5 s, then retract
at 65535 (extend 0) for 2 s, and leaves both channels at 0 at the end. -/
theorem runOneCycle_full_speed_scenario :
    segs (0, 0) (runOneCycleTrace 100 2000 none).1 =
      [((65535, 0), 2000), ((0, 0), 500), ((0, 65535), 2000)] ∧
      finalState (0, 0) (runOneCycleTrace 100 2000 none).1 = (0, 0) := by
  decide

/-- C4 counterexample: `extend_only` enables the extend channel at the
computed duty without ever forcing the retract channel to 0 — the trace of
`extend_only(duration=2, speed=100)` contains no event touching the retract
channel at all (the `ret` lines are commented out in the source). -/
theorem extendOnly_never_zeroes_retract :
    Ev.setDuty Ch.ext 65535 ∈ (extendOnlyTrace 2000 100 none).1 ∧
      (extendOnlyTrace 2000 100 none).1.countP touchesRet = 0 := by
  decide

/-- C4 amended: `retract_only` forces the extend channel (acquired at
entry) to 0 immediately before enabling the retract channel at the computed
duty, and never drives extend nonzero; `extend_only`, however, performs no
opposing-channel zeroing: it never acquires, writes or releases the retract
channel. -/
theorem retractOnly_zeroes_extend_first (durMs : ℕ) (speed : ℤ) (i : Option ℕ) :
    (∃ l1 l2, (retractOnlyTrace durMs speed i).1 =
        l1 ++ Ev.setDuty Ch.ext 0 :: Ev.setDuty Ch.ret (dutyCycle speed) :: l2) ∧
      Ev.acquire Ch.ext ∈ (retractOnlyTrace durMs speed i).1 ∧
      (retractOnlyTrace durMs speed i).1.countP drivesExt = 0 ∧
      (extendOnlyTrace durMs speed i).1.countP touchesRet = 0 := by
  have hx : (extendOnlyTrace durMs speed i).1.countP touchesRet = 0 := by
    rcases i with _ | (_ | k) <;>
      simp [extendOnlyTrace, tryCEF, cutAtSleep, List.countP_cons, touchesRet]
  refine ⟨?_, ?_, ?_, hx⟩
  · rcases i with _ | (_ | k)
    · exact ⟨[Ev.printMsg Msg.retStart, Ev.acquire Ch.ext, Ev.acquire Ch.ret],
        [Ev.sleep durMs, Ev.setDuty Ch.ext 0, Ev.setDuty Ch.ret 0,
         Ev.deinit Ch.ext, Ev.deinit Ch.ret, Ev.printMsg Msg.retStopped],
        by simp [retractOnlyTrace, tryCEF]⟩
    · exact ⟨[Ev.printMsg Msg.retStart, Ev.acquire Ch.ext, Ev.acquire Ch.ret],
        [Ev.printMsg Msg.stopInterrupted, Ev.setDuty Ch.ext 0, Ev.setDuty Ch.ret 0,
         Ev.deinit Ch.ext, Ev.deinit Ch.ret, Ev.printMsg Msg.retStopped],
        by simp [retractOnlyTrace, tryCEF, cutAtSleep]⟩
    · exact ⟨[Ev.printMsg Msg.retStart, Ev.acquire Ch.ext, Ev.acquire Ch.ret],
        [Ev.sleep durMs, Ev.printMsg Msg.stopInterrupted, Ev.setDuty Ch.ext 0,
         Ev.setDuty Ch.ret 0, Ev.deinit Ch.ext, Ev.deinit Ch.ret,
         Ev.printMsg Msg.retStopped],
        by simp [retractOnlyTrace, tryCEF, cutAtSleep]⟩
  · rcases i with _ | (_ | k) <;> simp [retractOnlyTrace, tryCEF, cutAtSleep]
  · rcases i with _ | (_ | k) <;>
      simp [retractOnlyTrace, tryCEF, cutAtSleep, List.countP_cons, drivesExt]

/-- C2: for any speed in `[0,100]`, any duration and any interruption
point, every duty state reached during `run_one_cycle` and `retract_only`
has at most one of the extend/retract channels nonzero; moreover the
uninterrupted `run_one_cycle` holds retract at 0 for the whole extend
phase and extend at 0 for the whole retract phase (the three timed
segments are exactly extend-only, both-zero, retract-only). -/
theorem at_most_one_channel_driven (speed : ℤ) (durMs : ℕ) (i : Option ℕ)
    (h0 : 0 ≤ speed) (h1 : speed ≤ 100) :
    (∀ st ∈ statesVisited (0, 0) (runOneCycleTrace speed durMs i).1,
        st.1 = 0 ∨ st.2 = 0) ∧
      (∀ st ∈ statesVisited (0, 0) (retractOnlyTrace durMs speed i).1,
        st.1 = 0 ∨ st.2 = 0) ∧
      segs (0, 0) (runOneCycleTrace speed durMs none).1 =
        [((dutyCycle speed, 0), durMs), ((0, 0), 500),
         ((0, dutyCycle speed), durMs)] := by
  rcases i with _ | (_ | _ | _ | k) <;>
    simp [runOneCycleTrace, runOneCycleBody, runOneCycleFin, retractOnlyTrace,
      tryCEF, cutAtSleep, statesVisited, List.scanl, stepSt, segs,
      List.forall_mem_cons]

/-- Witness for `at_most_one_channel_driven` at speed 100, duration 2 s,
interrupted during the pause. -/
theorem at_most_one_channel_driven_witness :
    (0 ≤ (100 : ℤ) ∧ (100 : ℤ) ≤ 100) ∧
      (∀ st ∈ statesVisited (0, 0) (runOneCycleTrace 100 2000 (some 1)).1,
        st.1 = 0 ∨ st.2 = 0) :=
  ⟨by decide, ((at_most_one_channel_driven 100 2000 (some 1)
      (by decide) (by decide))).1⟩

/-- C3: on every exit path (uninterrupted, or interrupted at any blocking
wait), each of `run_one_cycle`, `extend_only` and `retract_only` releases
every PWM channel it acquired exactly once, with the channel's duty already
forced to 0 at the moment of release, and leaves every acquired channel at
duty 0 on return. -/
theorem channels_released_on_every_path (speed : ℤ) (durMs : ℕ) (i : Option ℕ) :
    (deinitCount Ch.ext (runOneCycleTrace speed durMs i).1 = 1 ∧
      deinitCount Ch.ret (runOneCycleTrace speed durMs i).1 = 1 ∧
      dutyAtDeinit Ch.ext (0, 0) (runOneCycleTrace speed durMs i).1 = some 0 ∧
      dutyAtDeinit Ch.ret (0, 0) (runOneCycleTrace speed durMs i).1 = some 0 ∧
      finalState (0, 0) (runOneCycleTrace speed durMs i).1 = (0, 0)) ∧
      (deinitCount Ch.ext (extendOnlyTrace durMs speed i).1 = 1 ∧
        dutyAtDeinit Ch.ext (0, 0) (extendOnlyTrace durMs speed i).1 = some 0 ∧
        (finalState (0, 0) (extendOnlyTrace durMs speed i).1).1 = 0) ∧
      (deinitCount Ch.ext (retractOnlyTrace durMs speed i).1 = 1 ∧
        deinitCount Ch.ret (retractOnlyTrace durMs speed i).1 = 1 ∧
        dutyAtDeinit Ch.ext (0, 0) (retractOnlyTrace durMs speed i).1 = some 0 ∧
        dutyAtDeinit Ch.ret (0, 0) (retractOnlyTrace durMs speed i).1 = some 0 ∧
        finalState (0, 0) (retractOnlyTrace durMs speed i).1 = (0, 0)) := by
  rcases i with _ | (_ | _ | _ | k) <;>
    simp [runOneCycleTrace, runOneCycleBody, runOneCycleFin, extendOnlyTrace,
      retractOnlyTrace, tryCEF, cutAtSleep, deinitCount, List.countP_cons,
      dutyAtDeinit, dutySt, finalState, stepSt]

/-- A ramp loop that never hits the elapsed-time bound executes every step:
one duty write and one 50 ms sleep per range value. -/
theorem pwmRamp_no_break (l : List ℕ) (dur e : ℕ) (h : e + 50 * l.length ≤ dur) :
    pwmRamp dur l e =
      (l.flatMap (fun s => [Ev.setDuty Ch.tst (s : ℤ), Ev.sleep 50]),
       e + 50 * l.length) := by
  induction l generalizing e with
  | nil => simp [pwmRamp]
  | cons s rest ih =>
    have hlen : e + 50 * (s :: rest).length = (e + 50) + 50 * rest.length := by
      simp [List.length_cons]; ring
    have he : ¬ dur ≤ e := by omega
    rw [pwmRamp, if_neg he, ih (e + 50) (by omega)]
    simp [List.flatMap_cons, hlen]
    ring

/-- An iteration of `test_pwm`'s outer loop whose bound is at least 7.6 s
away runs all four phases in full: 66 ascending steps, hold, 66 descending
steps, stop; it takes 8.6 s and does not break out of the `while`. -/
theorem pwmIter_no_break (dur e : ℕ) (h : e + 7600 ≤ dur) :
    pwmIter dur e =
      (Ev.printMsg Msg.speedingUp ::
        ((pyRangeAsc 0 65535 1000).flatMap
            (fun s => [Ev.setDuty Ch.tst (s : ℤ), Ev.sleep 50]) ++
          (Ev.printMsg Msg.fullSpeed :: Ev.setDuty Ch.tst 65535 :: Ev.sleep 1000 ::
            Ev.printMsg Msg.slowingDown ::
            ((pyRangeDesc 65535 0 1000).flatMap
                (fun s => [Ev.setDuty Ch.tst (s : ℤ), Ev.sleep 50]) ++
              [Ev.setDuty Ch.tst 0, Ev.sleep 1000]))),
       e + 8600, false) := by
  have hla : (pyRangeAsc 0 65535 1000).length = 66 := by decide
  have hld : (pyRangeDesc 65535 0 1000).length = 66 := by decide
  have ha := pwmRamp_no_break (pyRangeAsc 0 65535 1000) dur e (by omega)
  have hb := pwmRamp_no_break (pyRangeDesc 65535 0 1000) dur (e + 3300 + 1000)
    (by rw [hld]; omega)
  rw [pwmIter, ha]
  rw [hla]
  have h60 : ¬ dur ≤ e + 50 * 66 := by omega
  rw [if_neg h60]
  have h68 : ¬ dur ≤ e + 50 * 66 + 1000 := by omega
  rw [if_neg h68]
  have : e + 50 * 66 + 1000 = e + 3300 + 1000 := by ring
  rw [this, hb, hld]
  simp


theorem sleepSum_append (a b : List Ev) :
    sleepSum (a ++ b) = sleepSum a + sleepSum b := by
  induction a with
  | nil => simp [sleepSum]
  | cons x r ih => cases x <;> simp [sleepSum, ih] <;> omega

theorem sleepStamps_append (e : ℕ) (a b : List Ev) :
    sleepStamps e (a ++ b) = sleepStamps e a ++ sleepStamps (e + sleepSum a) b := by
  induction a generalizing e with
  | nil => simp [sleepSum, sleepStamps]
  | cons x r ih =>
    cases x <;> simp [sleepSum, sleepStamps, ih] <;>
      rw [Nat.add_assoc]

/-- Bounds for a single ramp loop of `test_pwm`, for any range list, bound
and start time: the exit time does not move backwards, exceeds a passed
bound by less than one 50 ms step, equals start plus slept time, and every
sleep is a 50 ms step that begins strictly before the bound (the check on
line 55/74 runs before every step). -/
theorem pwmRamp_stamps (l : List ℕ) (dur e : ℕ) :
    e ≤ (pwmRamp dur l e).2 ∧
      (pwmRamp dur l e).2 ≤ max e (dur + 49) ∧
      (pwmRamp dur l e).2 = e + sleepSum (pwmRamp dur l e).1 ∧
      ∀ p ∈ sleepStamps e (pwmRamp dur l e).1, p.2 = 50 ∧ p.1 < dur := by
  induction l generalizing e with
  | nil => simp [pwmRamp, sleepSum, sleepStamps]
  | cons s rest ih =>
    by_cases he : dur ≤ e
    · simp [pwmRamp, he, sleepSum, sleepStamps]
    · obtain ⟨ih1, ih2, ih3, ih4⟩ := ih (e + 50)
      have hm : max (e + 50) (dur + 49) = dur + 49 := Nat.max_eq_right (by omega)
      rw [hm] at ih2
      rw [pwmRamp, if_neg he]
      simp only [sleepSum, sleepStamps, List.forall_mem_cons]
      exact ⟨by omega, le_trans ih2 (Nat.le_max_right e (dur + 49)), by omega,
        ⟨trivial, by omega⟩, ih4⟩

/-- C6 counterexample: in a full (never-interrupted, bound never reached)
iteration of `test_pwm`'s outer loop, the ascending loop's written values
are `range(0, 65535, 1000)`, which ends at 65000 and never contains 65535
(65535 is only written by the subsequent hold phase), and the descending
loop's written values are `range(65535, 0, -1000)`, which ends at 535 and
never contains 0 (0 is only written by the final stop phase): the ramps do
not run "from 0 to 65535" / "from 65535 to 0" as claimed. -/
theorem pwm_ramps_miss_endpoints :
    writesOf (pwmIter 1000000 0).1 =
        ((pyRangeAsc 0 65535 1000).map (fun n => (n : ℤ))) ++ [65535] ++
          ((pyRangeDesc 65535 0 1000).map (fun n => (n : ℤ))) ++ [0] ∧
      (pyRangeAsc 0 65535 1000).getLast? = some 65000 ∧
      (65535 : ℕ) ∉ pyRangeAsc 0 65535 1000 ∧
      (pyRangeDesc 65535 0 1000).getLast? = some 535 ∧
      (0 : ℕ) ∉ pyRangeDesc 65535 0 1000 := by
  decide

/-- C6 amended: in each iteration of `test_pwm`'s outer loop that runs to
completion (bound not yet reached), the events are exactly: an ascending
ramp writing 0, 1000, ..., 65000 (the multiples of 1000 below the excluded
range bound 65535) with a 50 ms sleep after each write; a hold writing
65535 followed by a 1 s sleep; a descending ramp writing 65535, 64535, ...,
535 with a 50 ms sleep after each write; and a stop writing 0 followed by
a 1 s sleep.  In every ramp loop the elapsed-time bound is checked before
each step: each 50 ms ramp sleep begins strictly before the bound. -/
theorem pwm_iteration_shape (dur e : ℕ) (h : e + 7600 ≤ dur) :
    (pwmIter dur e).1 =
        Ev.printMsg Msg.speedingUp ::
          ((((List.range 66).map (fun k => k * 1000) : List ℕ)).flatMap
              (fun s => [Ev.setDuty Ch.tst (s : ℤ), Ev.sleep 50]) ++
            (Ev.printMsg Msg.fullSpeed :: Ev.setDuty Ch.tst 65535 :: Ev.sleep 1000 ::
              Ev.printMsg Msg.slowingDown ::
              ((((List.range 66).map (fun k => 65535 - k * 1000) : List ℕ)).flatMap
                  (fun s => [Ev.setDuty Ch.tst (s : ℤ), Ev.sleep 50]) ++
                [Ev.setDuty Ch.tst 0, Ev.sleep 1000]))) ∧
      ∀ l dur' e', ∀ p ∈ sleepStamps e' (pwmRamp dur' l e').1, p.2 = 50 ∧ p.1 < dur' := by
  constructor
  · have ha : pyRangeAsc 0 65535 1000 = (List.range 66).map (fun k => k * 1000) := by
      decide
    have hd : pyRangeDesc 65535 0 1000 =
        (List.range 66).map (fun k => 65535 - k * 1000) := by decide
    rw [pwmIter_no_break dur e h, ha, hd]
  · intro l dur' e'
    exact (pwmRamp_stamps l dur' e').2.2.2

/-- Witness for `pwm_iteration_shape` at `e = 0`, `dur = 10000`. -/
theorem pwm_iteration_shape_witness :
    (0 + 7600 ≤ 10000) ∧
      writesOf (pwmIter 10000 0).1 =
        ((List.range 66).map (fun k => ((k * 1000 : ℕ) : ℤ))) ++ [65535] ++
          ((List.range 66).map (fun k => ((65535 - k * 1000 : ℕ) : ℤ))) ++ [0] := by
  refine ⟨by decide, ?_⟩
  rw [(pwm_iteration_shape 10000 0 (by decide)).1]
  decide

theorem sleepSum_nil : sleepSum [] = 0 := rfl

theorem sleepSum_cons_sleep (t : ℕ) (l : List Ev) :
    sleepSum (Ev.sleep t :: l) = t + sleepSum l := rfl

theorem sleepSum_cons_printMsg (m : Msg) (l : List Ev) :
    sleepSum (Ev.printMsg m :: l) = sleepSum l := rfl

theorem sleepSum_cons_setDuty (c : Ch) (v : ℤ) (l : List Ev) :
    sleepSum (Ev.setDuty c v :: l) = sleepSum l := rfl

theorem sleepStamps_nil (e : ℕ) : sleepStamps e [] = [] := rfl

theorem sleepStamps_cons_sleep (e t : ℕ) (l : List Ev) :
    sleepStamps e (Ev.sleep t :: l) = (e, t) :: sleepStamps (e + t) l := rfl

theorem sleepStamps_cons_printMsg (e : ℕ) (m : Msg) (l : List Ev) :
    sleepStamps e (Ev.printMsg m :: l) = sleepStamps e l := rfl

theorem sleepStamps_cons_setDuty (e : ℕ) (c : Ch) (v : ℤ) (l : List Ev) :
    sleepStamps e (Ev.setDuty c v :: l) = sleepStamps e l := rfl

theorem sleepSum_cons_pinWrite (v : ℕ) (l : List Ev) :
    sleepSum (Ev.pinWrite v :: l) = sleepSum l := rfl

theorem sleepStamps_cons_pinWrite (e v : ℕ) (l : List Ev) :
    sleepStamps e (Ev.pinWrite v :: l) = sleepStamps e l := rfl

/-- Bounds for one iteration of `test_pwm`'s outer loop, entered with the
bound not yet reached: if it breaks the `while` the bound has been reached;
its exit time overshoots the bound by at most 1049 ms; the exit time is the
entry time plus slept time; every 50 ms ramp sleep starts strictly before
the bound and every sleep at all starts within 50 ms of it. -/
theorem pwmIter_bounds (dur e : ℕ) (he : e < dur) :
    ((pwmIter dur e).2.2 = true → dur ≤ (pwmIter dur e).2.1) ∧
      (pwmIter dur e).2.1 ≤ dur + 1049 ∧
      (pwmIter dur e).2.1 = e + sleepSum (pwmIter dur e).1 ∧
      ∀ p ∈ sleepStamps e (pwmIter dur e).1,
        (p.2 = 50 → p.1 < dur) ∧ p.1 < dur + 50 := by
  obtain ⟨a1, a2, a3, a4⟩ := pwmRamp_stamps (pyRangeAsc 0 65535 1000) dur e
  rw [Nat.max_eq_right (by omega : e ≤ dur + 49)] at a2
  simp only [pwmIter]
  by_cases h60 : dur ≤ (pwmRamp dur (pyRangeAsc 0 65535 1000) e).2
  · rw [if_pos h60]
    simp only [sleepSum_cons_printMsg, sleepStamps_cons_printMsg]
    refine ⟨fun _ => h60, by omega, by omega, fun p hp => ?_⟩
    have := a4 p hp
    exact ⟨fun _ => this.2, by omega⟩
  · rw [if_neg h60]
    by_cases h68 : dur ≤ (pwmRamp dur (pyRangeAsc 0 65535 1000) e).2 + 1000
    · rw [if_pos h68]
      simp only [List.cons_append, sleepStamps_append, sleepSum_append,
        sleepSum_cons_printMsg, sleepSum_cons_setDuty, sleepSum_cons_sleep,
        sleepSum_nil, sleepStamps_cons_printMsg, sleepStamps_cons_setDuty,
        sleepStamps_cons_sleep, sleepStamps_nil, Nat.add_zero]
      refine ⟨fun _ => h68, by omega, by omega, fun p hp => ?_⟩
      rcases List.mem_append.1 hp with h | h
      · have := a4 p h
        exact ⟨fun _ => this.2, by omega⟩
      · rcases List.mem_singleton.1 h with rfl
        exact ⟨by omega, by omega⟩
    · rw [if_neg h68]
      obtain ⟨b1, b2, b3, b4⟩ :=
        pwmRamp_stamps (pyRangeDesc 65535 0 1000) dur
          ((pwmRamp dur (pyRangeAsc 0 65535 1000) e).2 + 1000)
      rw [Nat.max_eq_right
        (by omega : (pwmRamp dur (pyRangeAsc 0 65535 1000) e).2 + 1000 ≤ dur + 49)] at b2
      simp only [List.cons_append, List.append_assoc, sleepStamps_append,
        sleepSum_append, sleepSum_cons_printMsg, sleepSum_cons_setDuty,
        sleepSum_cons_sleep, sleepSum_nil, sleepStamps_cons_printMsg,
        sleepStamps_cons_setDuty, sleepStamps_cons_sleep, sleepStamps_nil,
        Nat.add_zero]
      have hbase : e + sleepSum (pwmRamp dur (pyRangeAsc 0 65535 1000) e).1 + 1000 =
          (pwmRamp dur (pyRangeAsc 0 65535 1000) e).2 + 1000 := by omega
      refine ⟨by simp, by omega, by omega, fun p hp => ?_⟩
      simp only [List.mem_append, List.mem_cons, List.mem_singleton,
        List.not_mem_nil, or_false, false_or] at hp
      rcases hp with h | rfl | h | rfl
      · have := a4 p h
        exact ⟨fun _ => this.2, by omega⟩
      · exact ⟨by omega, by omega⟩
      · rw [hbase] at h
        have := b4 p h
        exact ⟨fun _ => this.2, by omega⟩
      · exact ⟨by omega, by omega⟩

/-- Invariant of `test_pwm`'s outer loop, for any fuel, bound and start
time: the loop never exits before the bound; started at or past the bound
it exits immediately; started before the bound it overshoots by at most
1049 ms; every 50 ms ramp sleep starts strictly before the bound and every
sleep starts within 50 ms of it. -/
theorem pwmLoop_spec (fuel : ℕ) :
    ∀ dur e r, pwmLoop fuel dur e = some r →
      dur ≤ r.2 ∧ (dur ≤ e → r.2 = e) ∧ (e < dur → r.2 ≤ dur + 1049) ∧
        ∀ p ∈ sleepStamps e r.1, (p.2 = 50 → p.1 < dur) ∧ p.1 < dur + 50 := by
  induction fuel with
  | zero =>
    intro dur e r h
    simp [pwmLoop] at h
  | succ n ih =>
    intro dur e r h
    rw [pwmLoop] at h
    by_cases he : e < dur
    · rw [if_pos he] at h
      obtain ⟨i1, i2, i3, i4⟩ := pwmIter_bounds dur e he
      by_cases hb : (pwmIter dur e).2.2 = true
      · rw [if_pos hb] at h
        injection h with h2
        subst h2
        exact ⟨i1 hb, by omega, fun _ => i2, i4⟩
      · rw [if_neg hb] at h
        rcases heq : pwmLoop n dur (pwmIter dur e).2.1 with _ | r1
        · rw [heq] at h
          simp at h
        · rw [heq] at h
          injection h with h2
          subst h2
          obtain ⟨j1, j2, j3, j4⟩ := ih dur (pwmIter dur e).2.1 r1 heq
          refine ⟨j1, by omega, fun _ => by omega, ?_⟩
          rw [sleepStamps_append]
          intro p hp
          rcases List.mem_append.1 hp with hma | hmb
          · exact i4 p hma
          · rw [← i3] at hmb
            exact j4 p hmb
    · rw [if_neg he] at h
      injection h with h2
      subst h2
      exact ⟨by omega, fun _ => rfl, by omega, by simp [sleepStamps_nil]⟩

/-- Invariant of `test_led`'s blink loop: never exits before the bound;
entered at or past the bound it exits immediately; entered before it,
the overshoot is below one phase delay (any `M` dominating both the on and
off delays); every sleep starts strictly before the bound (the bound is
checked before each blocking step, lines 24 and 27). -/
theorem ledLoop_spec (fuel : ℕ) :
    ∀ don doff M dur e r, don ≤ M → doff ≤ M → ledLoop fuel don doff dur e = some r →
      dur ≤ r.2 ∧ (dur ≤ e → r.2 = e) ∧ (e < dur → r.2 < dur + M) ∧
        ∀ p ∈ sleepStamps e r.1, p.1 < dur := by
  induction fuel with
  | zero =>
    intro don doff M dur e r _ _ h
    simp [ledLoop] at h
  | succ n ih =>
    intro don doff M dur e r hdon hdoff h
    rw [ledLoop] at h
    by_cases he : e < dur
    · rw [if_pos he] at h
      by_cases h1 : dur ≤ e + don
      · rw [if_pos h1] at h
        injection h with h2
        subst h2
        refine ⟨h1, by omega, by omega, ?_⟩
        simp only [sleepStamps_cons_pinWrite, sleepStamps_cons_sleep, sleepStamps_nil]
        intro p hp
        rcases List.mem_singleton.1 hp with rfl
        exact he
      · rw [if_neg h1] at h
        rcases heq : ledLoop n don doff dur (e + don + doff) with _ | r1
        · rw [heq] at h
          simp at h
        · rw [heq] at h
          injection h with h2
          subst h2
          obtain ⟨j1, j2, j3, j4⟩ := ih don doff M dur (e + don + doff) r1 hdon hdoff heq
          refine ⟨j1, by omega, fun _ => by omega, ?_⟩
          simp only [List.cons_append, List.nil_append, sleepStamps_cons_pinWrite,
            sleepStamps_cons_sleep]
          intro p hp
          rcases List.mem_cons.1 hp with h' | h'
          · subst h'
            exact he
          · rcases List.mem_cons.1 h' with h'' | h''
            · subst h''
              simp only []
              omega
            · exact j4 p h''
    · rw [if_neg he] at h
      injection h with h2
      subst h2
      exact ⟨by omega, fun _ => rfl, by omega, by simp [sleepStamps_nil]⟩

/-- C7 counterexample: with duration 4380 ms, `test_pwm`'s loop exits at
5400 ms — an overshoot of 1020 ms, exceeding every single step delay in the
trace (all sleeps are at most 1000 ms) — because the final stop hold
(`duty_u16(0); time.sleep(1)`, lines 80-81) begins at 4400 ms, at or after
the already-expired bound, with no elapsed-time check before it. -/
theorem pwm_overshoot_exceeds_one_step :
    (pwmLoop 3 4380 0).map Prod.snd = some 5400 ∧
      4380 + 1000 < 5400 ∧
      (pwmLoop 3 4380 0).map
          (fun r => (sleepStamps 0 r.1).contains (4400, 1000)) = some true ∧
      (pwmLoop 3 4380 0).map
          (fun r => r.1.all (fun ev =>
            match ev with
            | Ev.sleep t => decide (t ≤ 1000)
            | _ => true)) = some true := by
  decide

/-- C7 amended: `test_led`'s loop never exits before its bound, checks the
bound before every blocking step, and overshoots by at most one phase delay
(`max delay_on delay_off`).  `test_pwm`'s loop also never exits before its
bound and all its 50 ms ramp steps are bound-checked, but the final 1 s
stop hold is not: a sleep may start up to 50 ms past the bound, and the
total overshoot is bounded by 1049 ms (one ramp step short of a ramp step
plus the stop hold), not by one step's delay. -/
theorem timed_loops_amended (fuelL don doff durL fuelP durP : ℕ)
    (rl rp : List Ev × ℕ)
    (hl : ledLoop fuelL don doff durL 0 = some rl)
    (hp : pwmLoop fuelP durP 0 = some rp) :
    (durL ≤ rl.2 ∧ rl.2 ≤ durL + max don doff ∧
        ∀ p ∈ sleepStamps 0 rl.1, p.1 < durL) ∧
      (durP ≤ rp.2 ∧ rp.2 ≤ durP + 1049 ∧
        ∀ p ∈ sleepStamps 0 rp.1, (p.2 = 50 → p.1 < durP) ∧ p.1 < durP + 50) := by
  obtain ⟨l1, l2, l3, l4⟩ := ledLoop_spec fuelL don doff (max don doff) durL 0 rl
    (le_max_left don doff) (le_max_right don doff) hl
  obtain ⟨p1, p2, p3, p4⟩ := pwmLoop_spec fuelP durP 0 rp hp
  refine ⟨⟨l1, ?_, l4⟩, p1, ?_, p4⟩
  · rcases Nat.eq_zero_or_pos durL with hz | hpos
    · have := l2 (by omega)
      omega
    · have := l3 hpos
      omega
  · rcases Nat.eq_zero_or_pos durP with hz | hpos
    · have := p2 (by omega)
      omega
    · exact p3 hpos

/-- Witness for `timed_loops_amended`: `test_led(2, 1, duration=4)` exits
at 5 s; a 9 s `test_pwm` run exits at exactly 9 s. -/
theorem timed_loops_amended_witness :
    (ledLoop 5 2000 1000 4000 0).elim False
        (fun r => 4000 ≤ r.2 ∧ r.2 ≤ 4000 + max 2000 1000) ∧
      (pwmLoop 2 9000 0).elim False (fun r => 9000 ≤ r.2 ∧ r.2 ≤ 9000 + 1049) := by
  obtain ⟨rl, hrl⟩ : ∃ r, ledLoop 5 2000 1000 4000 0 = some r := ⟨_, rfl⟩
  obtain ⟨rp, hrp⟩ : ∃ r, pwmLoop 2 9000 0 = some r := ⟨_, rfl⟩
  obtain ⟨⟨l1, l2, _⟩, p1, p2, _⟩ :=
    timed_loops_amended 5 2000 1000 4000 2 9000 rl rp hrl hrp
  rw [hrl, hrp]
  exact ⟨⟨l1, l2⟩, p1, p2⟩

theorem tryCEF_snd (body handler fin : List Ev) (i : Option ℕ) :
    (tryCEF body handler fin i).2 = false := by
  rcases i with _ | k <;> rfl

theorem tryCEF_fin_suffix (body handler fin : List Ev) (i : Option ℕ) :
    fin <:+ (tryCEF body handler fin i).1 := by
  rcases i with _ | k
  · exact List.suffix_append body fin
  · exact List.suffix_append (cutAtSleep k body ++ handler) fin

theorem tryCEF_handler_mem (body handler fin : List Ev) (k : ℕ) (x : Ev)
    (hx : x ∈ handler) :
    x ∈ (tryCEF body handler fin (some k)).1 := by
  simp only [tryCEF, List.mem_append]
  exact Or.inl (Or.inr hx)

/-- C8: in every one of the five entry points, a `KeyboardInterrupt`
arriving during any timed wait is caught by the entry point's own
`except KeyboardInterrupt` clause (no exception propagates out), the
corresponding message is printed, and control reaches exactly the same
`finally` cleanup suffix as on normal completion. -/
theorem interrupts_reach_cleanup (speed : ℤ)
    (durMs don doff durL fuelL durP fuelP : ℕ) (i : Option ℕ) :
    ((runOneCycleTrace speed durMs i).2 = false ∧
      runOneCycleFin <:+ (runOneCycleTrace speed durMs i).1 ∧
      (i.isSome = true →
        Ev.printMsg Msg.cycleInterrupted ∈ (runOneCycleTrace speed durMs i).1)) ∧
      ((extendOnlyTrace durMs speed i).2 = false ∧
        [Ev.setDuty Ch.ext 0, Ev.deinit Ch.ext, Ev.printMsg Msg.extStopped] <:+
          (extendOnlyTrace durMs speed i).1 ∧
        (i.isSome = true →
          Ev.printMsg Msg.stopInterrupted ∈ (extendOnlyTrace durMs speed i).1)) ∧
      ((retractOnlyTrace durMs speed i).2 = false ∧
        [Ev.setDuty Ch.ext 0, Ev.setDuty Ch.ret 0, Ev.deinit Ch.ext, Ev.deinit Ch.ret,
          Ev.printMsg Msg.retStopped] <:+ (retractOnlyTrace durMs speed i).1 ∧
        (i.isSome = true →
          Ev.printMsg Msg.stopInterrupted ∈ (retractOnlyTrace durMs speed i).1)) ∧
      (∀ r, testLedTrace don doff durL fuelL i = some r →
        r.2 = false ∧ [Ev.pinWrite 0] <:+ r.1 ∧
          (i.isSome = true → Ev.printMsg Msg.testStopped ∈ r.1)) ∧
      (∀ r, testPwmTrace durP fuelP i = some r →
        r.2 = false ∧ [Ev.setDuty Ch.tst 0] <:+ r.1 ∧
          (i.isSome = true → Ev.printMsg Msg.testStopped ∈ r.1)) := by
  refine ⟨⟨tryCEF_snd _ _ _ i, ?_, ?_⟩, ⟨tryCEF_snd _ _ _ i, ?_, ?_⟩,
    ⟨tryCEF_snd _ _ _ i, ?_, ?_⟩, ?_, ?_⟩
  · exact ((tryCEF_fin_suffix _ _ _ i).trans (List.suffix_cons _ _)).trans
      ((List.suffix_cons _ _).trans (List.suffix_cons _ _))
  · intro hs
    rcases i with _ | k
    · simp at hs
    · exact List.mem_cons_of_mem _ (List.mem_cons_of_mem _ (List.mem_cons_of_mem _
        (tryCEF_handler_mem _ _ _ k _ (List.mem_singleton.2 rfl))))
  · exact ((tryCEF_fin_suffix _ _ _ i).trans (List.suffix_cons _ _)).trans
      (List.suffix_cons _ _)
  · intro hs
    rcases i with _ | k
    · simp at hs
    · exact List.mem_cons_of_mem _ (List.mem_cons_of_mem _
        (tryCEF_handler_mem _ _ _ k _ (List.mem_singleton.2 rfl)))
  · exact ((tryCEF_fin_suffix _ _ _ i).trans (List.suffix_cons _ _)).trans
      ((List.suffix_cons _ _).trans (List.suffix_cons _ _))
  · intro hs
    rcases i with _ | k
    · simp at hs
    · exact List.mem_cons_of_mem _ (List.mem_cons_of_mem _ (List.mem_cons_of_mem _
        (tryCEF_handler_mem _ _ _ k _ (List.mem_singleton.2 rfl))))
  · intro r hr
    rcases heq : ledLoop fuelL don doff durL 0 with _ | rb
    · rw [testLedTrace, heq] at hr
      simp at hr
    · rw [testLedTrace, heq] at hr
      injection hr with h2
      subst h2
      refine ⟨tryCEF_snd _ _ _ i, ?_, ?_⟩
      · exact (tryCEF_fin_suffix _ _ _ i).trans (List.suffix_cons _ _)
      · intro hs
        rcases i with _ | k
        · simp at hs
        · exact List.mem_cons_of_mem _
            (tryCEF_handler_mem _ _ _ k _ (List.mem_singleton.2 rfl))
  · intro r hr
    rcases heq : pwmLoop fuelP durP 0 with _ | rb
    · rw [testPwmTrace, heq] at hr
      simp at hr
    · rw [testPwmTrace, heq] at hr
      injection hr with h2
      subst h2
      refine ⟨tryCEF_snd _ _ _ i, ?_, ?_⟩
      · exact ((tryCEF_fin_suffix _ _ _ i).trans (List.suffix_cons _ _)).trans
          (List.suffix_cons _ _)
      · intro hs
        rcases i with _ | k
        · simp at hs
        · exact List.mem_cons_of_mem _ (List.mem_cons_of_mem _
            (tryCEF_handler_mem _ _ _ k _ (List.mem_singleton.2 rfl)))

/-- Witness for `interrupts_reach_cleanup`: interrupts during the first
wait of each entry point are swallowed and logged. -/
theorem interrupts_reach_cleanup_witness :
    ((runOneCycleTrace 100 2000 (some 0)).2 = false ∧
      Ev.printMsg Msg.cycleInterrupted ∈ (runOneCycleTrace 100 2000 (some 0)).1) ∧
      (testLedTrace 2000 1000 4000 5 (some 0)).elim False
        (fun r => r.2 = false ∧ Ev.printMsg Msg.testStopped ∈ r.1) ∧
      (testPwmTrace 9000 2 (some 0)).elim False
        (fun r => r.2 = false ∧ Ev.printMsg Msg.testStopped ∈ r.1) := by
  have h := interrupts_reach_cleanup 100 2000 2000 1000 4000 5 9000 2 (some 0)
  obtain ⟨rl, hrl⟩ : ∃ r, testLedTrace 2000 1000 4000 5 (some 0) = some r := ⟨_, rfl⟩
  obtain ⟨rp, hrp⟩ : ∃ r, testPwmTrace 9000 2 (some 0) = some r := ⟨_, rfl⟩
  have hled := h.2.2.2.1 rl hrl
  have hpwm := h.2.2.2.2 rp hrp
  rw [hrl, hrp]
  exact ⟨⟨h.1.1, h.1.2.2 rfl⟩, ⟨hled.1, hled.2.2 rfl⟩, hpwm.1, hpwm.2.2 rfl⟩

/-- Witness for `channels_released_on_every_path`: speed 100, 2 s, interrupt
during the pause. -/
theorem channels_released_on_every_path_witness :
    deinitCount Ch.ext (runOneCycleTrace 100 2000 (some 1)).1 = 1 ∧
      finalState (0, 0) (runOneCycleTrace 100 2000 (some 1)).1 = (0, 0) ∧
      dutyAtDeinit Ch.ext (0, 0) (extendOnlyTrace 2000 100 (some 0)).1 = some 0 :=
  ⟨(channels_released_on_every_path 100 2000 (some 1)).1.1,
   (channels_released_on_every_path 100 2000 (some 1)).1.2.2.2.2,
   (channels_released_on_every_path 100 2000 (some 0)).2.1.2.1⟩

/-- Witness for `retractOnly_zeroes_extend_first` at duration 2 s, speed
100, interrupted during the single wait. -/
theorem retractOnly_zeroes_extend_first_witness :
    Ev.acquire Ch.ext ∈ (retractOnlyTrace 2000 100 (some 0)).1 ∧
      (retractOnlyTrace 2000 100 (some 0)).1.countP drivesExt = 0 ∧
      (extendOnlyTrace 2000 100 (some 0)).1.countP touchesRet = 0 :=
  ⟨(retractOnly_zeroes_extend_first 2000 100 (some 0)).2.1,
   (retractOnly_zeroes_extend_first 2000 100 (some 0)).2.2.1,
   (retractOnly_zeroes_extend_first 2000 100 (some 0)).2.2.2⟩
